import Mathlib

/-!
Shallow embedding of the task-list state core of `src/App.js`
(a single-screen React Native to-do list).

The embedded parts are:
  * the `Task` record (`id`, `text`, `isCompleted`) and the id generator
    `generateId = Date.now().toString()`;
  * the three mutations `addTask`, `toggleTask`, `deleteTask` acting on the
    `tasks` state array;
  * the persistence glue `saveTasks` (`JSON.stringify` + `setItem`) and
    `loadTasks` (`getItem` + truthiness check + `JSON.parse` in a try/catch),
    via an executable model of the JSON text format;
  * the effect wiring: `useEffect(.., [tasks])` fires `saveTasks` after every
    commit in which the `tasks` array changed reference (including the
    initial mount), which we model as an event trace.

JavaScript timestamps are modelled as `Nat`, JS strings as Lean `String`
(sequences of Unicode scalar values; the claims never involve lone
surrogates), and `jsTrim` models `String.prototype.trim` over the
ECMAScript whitespace set.
-/

namespace Todo

/-- Fixed AsyncStorage key, `STORAGE_KEY` in `App.js`. -/
def STORAGE_KEY : String := "@TodoList:tasks"

/-- Task record as built in `addTask`: `{ id, text, isCompleted }`. -/
structure Task where
  id : String
  text : String
  isCompleted : Bool
deriving DecidableEq, Repr

/-- The id generator `generateId = () => Date.now().toString()`; the current
clock reading in milliseconds is an explicit `Nat` argument. -/
def generateId (now : Nat) : String := toString now

/-- Code points stripped by `String.prototype.trim`: the ECMAScript
WhiteSpace set (tab, VT, FF, space, NBSP, ZWNBSP and the Zs category) and
the LineTerminator set (LF, CR, LS, PS). -/
def isJsSpace (c : Char) : Bool :=
  c.toNat = 9 || c.toNat = 10 || c.toNat = 11 || c.toNat = 12 || c.toNat = 13 ||
  c.toNat = 32 || c.toNat = 160 || c.toNat = 5760 ||
  (8192 ≤ c.toNat && c.toNat ≤ 8202) ||
  c.toNat = 8232 || c.toNat = 8233 || c.toNat = 8239 || c.toNat = 8287 ||
  c.toNat = 12288 || c.toNat = 65279

/-- The JS `taskText.trim()`: leading and trailing whitespace removed. -/
def jsTrim (s : String) : String :=
  String.mk (((s.data.dropWhile isJsSpace).reverse.dropWhile isJsSpace).reverse)

/-- The `addTask` handler: no-op when the trimmed input is empty, otherwise
prepends a fresh task with the trimmed text and `isCompleted = false`.
The component state `taskText` and the clock are explicit arguments. -/
def addTask (now : Nat) (taskText : String) (tasks : List Task) : List Task :=
  if jsTrim taskText = "" then
    tasks
  else
    { id := generateId now, text := jsTrim taskText, isCompleted := false } :: tasks

/-- The `toggleTask` handler: maps over the array, replacing every task whose
`id` matches with a copy whose `isCompleted` is negated. -/
def toggleTask (id : String) (tasks : List Task) : List Task :=
  tasks.map fun task =>
    if task.id = id then { task with isCompleted := !task.isCompleted } else task

/-- The `deleteTask` handler: keeps exactly the tasks whose `id` differs from
the given one (the `LayoutAnimation` call is view-only and not modelled). -/
def deleteTask (id : String) (tasks : List Task) : List Task :=
  tasks.filter fun task => task.id ≠ id

/-- UI events that reach the task store: text submission, checkbox tap,
delete tap. An `add` event carries the clock reading used by `generateId`. -/
inductive Event where
  | add (now : Nat) (text : String)
  | toggle (id : String)
  | del (id : String)
deriving DecidableEq, Repr

/-- One event applied to the in-memory list. -/
def applyEvent (tasks : List Task) : Event → List Task
  | .add now text => addTask now text tasks
  | .toggle id => toggleTask id tasks
  | .del id => deleteTask id tasks

/-- The list obtained from `init` by a sequence of UI events. -/
def runFrom (init : List Task) (evs : List Event) : List Task :=
  evs.foldl applyEvent init

/-- The list obtained from the initial empty state by a sequence of UI
events (the component mounts with `useState([])`). -/
def run (evs : List Event) : List Task := runFrom [] evs

/-- List states reachable from the initial empty list by add/toggle/delete. -/
def Reachable (tasks : List Task) : Prop := ∃ evs, run evs = tasks

/-- The ids currently in the list. -/
def ids (tasks : List Task) : List String := tasks.map Task.id

/-- List states reachable from the empty list when the clock reading of
every add differs, as a string, from every id already present — the
behavior of `Date.now()` under the human-speed interaction the spec's ID
generation note assumes (a strictly monotone millisecond clock). -/
inductive ReachableFresh : List Task → Prop where
  | init : ReachableFresh []
  | addStep (now : Nat) (text : String) (tasks : List Task) :
      ReachableFresh tasks → generateId now ∉ ids tasks →
      ReachableFresh (addTask now text tasks)
  | toggleStep (id : String) (tasks : List Task) :
      ReachableFresh tasks → ReachableFresh (toggleTask id tasks)
  | delStep (id : String) (tasks : List Task) :
      ReachableFresh tasks → ReachableFresh (deleteTask id tasks)

/-! ## The JSON text format used by `saveTasks` / `loadTasks`

`saveTasks` stores `JSON.stringify(currentTasks)` and `loadTasks` applies
`JSON.parse` to the retrieved string. We model the JSON value space, the
exact text `JSON.stringify` emits for a task array (compact form, keys in
object-literal order, the standard string escapes), and `JSON.parse` as an
executable recursive-descent parser of JSON text. Number values are kept as
their raw lexeme: the stored blobs of this app contain no numbers, and JS
float semantics are outside this development. -/

/-- JSON values as produced by `JSON.parse`. Object members keep textual
order; duplicate keys are resolved on access like JS object literals. -/
inductive Json where
  | null
  | bool (b : Bool)
  | num (lexeme : String)
  | str (s : String)
  | arr (elems : List Json)
  | obj (members : List (String × Json))
deriving Repr

/-- Lowercase hexadecimal digit, as `JSON.stringify` emits in `\u` escapes. -/
def hexDigit (n : Nat) : Char :=
  if n < 10 then Char.ofNat (48 + n) else Char.ofNat (87 + n)

/-- Escape of a single character inside a JSON string literal, exactly the
code units `JSON.stringify` emits: `\"`, `\\`, the named control escapes,
`\u00XX` for the remaining control characters, everything else literal. -/
def escapeChar (c : Char) : List Char :=
  if c = '\"' then ['\\', '\"']
  else if c = '\\' then ['\\', '\\']
  else if c = Char.ofNat 8 then ['\\', 'b']
  else if c = Char.ofNat 9 then ['\\', 't']
  else if c = Char.ofNat 10 then ['\\', 'n']
  else if c = Char.ofNat 12 then ['\\', 'f']
  else if c = Char.ofNat 13 then ['\\', 'r']
  else if c.toNat < 32 then
    ['\\', 'u', '0', '0', hexDigit (c.toNat / 16), hexDigit (c.toNat % 16)]
  else [c]

/-- Rendering of a JSON string literal, quotes included. -/
def renderStr (s : String) : List Char :=
  '\"' :: (s.data.map escapeChar).flatten ++ ['\"']

/-- Text `JSON.stringify` emits for one task object: the three keys in the
order of the object literal in `addTask`, no whitespace. -/
def renderTask (t : Task) : List Char :=
  '\x7b' :: ("\"id\":".data ++ renderStr t.id
    ++ ",\"text\":".data ++ renderStr t.text
    ++ ",\"isCompleted\":".data
    ++ (if t.isCompleted then "true".data else "false".data)) ++ ['\x7d']

/-- Comma-joined renderings of the array elements. -/
def renderElems : List Task → List Char
  | [] => []
  | [t] => renderTask t
  | t :: ts => renderTask t ++ ',' :: renderElems ts

/-- The string `JSON.stringify(tasks)` stored by `saveTasks`. -/
def stringifyTasks (tasks : List Task) : String :=
  String.mk ('[' :: renderElems tasks ++ [']'])

/-- JSON abstract value of one task, the parse of `renderTask`. -/
def encodeTask (t : Task) : Json :=
  .obj [("id", .str t.id), ("text", .str t.text), ("isCompleted", .bool t.isCompleted)]

/-- JSON abstract value of the stored array. -/
def encodeTasks (tasks : List Task) : Json := .arr (tasks.map encodeTask)

/-- JSON whitespace. -/
def isWs (c : Char) : Bool :=
  c = ' ' || c = Char.ofNat 9 || c = Char.ofNat 10 || c = Char.ofNat 13

/-- Leading-whitespace skipping of the parser. -/
def skipWs : List Char → List Char
  | [] => []
  | c :: r => if isWs c then skipWs r else c :: r

/-- Value of one hexadecimal digit. -/
def hexVal (c : Char) : Option Nat :=
  if 48 ≤ c.toNat ∧ c.toNat ≤ 57 then some (c.toNat - 48)
  else if 97 ≤ c.toNat ∧ c.toNat ≤ 102 then some (c.toNat - 87)
  else if 65 ≤ c.toNat ∧ c.toNat ≤ 70 then some (c.toNat - 55)
  else none

/-- Value of a four-digit hexadecimal escape payload. -/
def hex4 (a b c d : Char) : Option Nat :=
  match hexVal a, hexVal b, hexVal c, hexVal d with
  | some x, some y, some z, some w => some (4096 * x + 256 * y + 16 * z + w)
  | _, _, _, _ => none

/-- Decoded character of a one-character escape sequence. -/
def escChar1 (e : Char) : Option Char :=
  if e = '\"' then some '\"'
  else if e = '\\' then some '\\'
  else if e = '/' then some '/'
  else if e = 'b' then some (Char.ofNat 8)
  else if e = 't' then some (Char.ofNat 9)
  else if e = 'n' then some (Char.ofNat 10)
  else if e = 'f' then some (Char.ofNat 12)
  else if e = 'r' then some (Char.ofNat 13)
  else none

/-- Decoding of one escape sequence, entered after the backslash: the
decoded character and the remaining text. `\u` escapes must denote a scalar
value or a surrogate pair (Lean strings hold scalar values, so a lone
surrogate, which JS would keep, has no representation and is refused). -/
def parseEsc : List Char → Option (Char × List Char)
  | 'u' :: h1 :: h2 :: h3 :: h4 :: r2 =>
    match hex4 h1 h2 h3 h4 with
    | none => none
    | some n =>
      if n < 55296 then some (Char.ofNat n, r2)
      else if 57343 < n then some (Char.ofNat n, r2)
      else if n < 56320 then
        match r2 with
        | '\\' :: 'u' :: g1 :: g2 :: g3 :: g4 :: r3 =>
          match hex4 g1 g2 g3 g4 with
          | none => none
          | some m =>
            if 56320 ≤ m ∧ m ≤ 57343 then
              some (Char.ofNat (65536 + 1024 * (n - 55296) + (m - 56320)), r3)
            else none
        | _ => none
      else none
  | e :: r1 =>
    match escChar1 e with
    | some d => some (d, r1)
    | none => none
  | [] => none

/-- Body of a JSON string literal, entered after the opening quote, with
fuel bounding the recursion (each step consumes at least one character, so
fuel `length + 1` is always enough); returns the decoded characters and the
text after the closing quote. Unescaped control characters are refused. -/
def parseStr : Nat → List Char → Option (List Char × List Char)
  | 0, _ => none
  | _ + 1, [] => none
  | fuel + 1, c :: r =>
    if c = '\"' then some ([], r)
    else if c = '\\' then
      match parseEsc r with
      | none => none
      | some (d, r1) =>
        match parseStr fuel r1 with
        | some (cs, rest) => some (d :: cs, rest)
        | none => none
    else if c.toNat < 32 then none
    else
      match parseStr fuel r with
      | some (cs, rest) => some (c :: cs, rest)
      | none => none

/-- Optional fraction part of a number lexeme. -/
def parseFrac : List Char → Option (List Char × List Char)
  | '.' :: r =>
    match r.span Char.isDigit with
    | ([], _) => none
    | (ds, rest) => some ('.' :: ds, rest)
  | s => some ([], s)

/-- Optional exponent part of a number lexeme. -/
def parseExp : List Char → Option (List Char × List Char)
  | [] => some ([], [])
  | c :: r =>
    if c = 'e' ∨ c = 'E' then
      let (sg, r1) :=
        match r with
        | '+' :: r2 => (['+'], r2)
        | '-' :: r2 => (['-'], r2)
        | _ => (([] : List Char), r)
      match r1.span Char.isDigit with
      | ([], _) => none
      | (ds, rest) => some (c :: sg ++ ds, rest)
    else some ([], c :: r)

/-- JSON number token: optional minus, integer part without leading zeros,
optional fraction and exponent; the raw lexeme is kept. -/
def parseNum (s : List Char) : Option (Json × List Char) :=
  let (sign, s1) :=
    match s with
    | '-' :: r => ((['-'] : List Char), r)
    | _ => ([], s)
  match s1.span Char.isDigit with
  | ([], _) => none
  | (ds, r1) =>
    if ds.head? = some '0' ∧ 1 < ds.length then none
    else
      match parseFrac r1 with
      | none => none
      | some (fr, r2) =>
        match parseExp r2 with
        | none => none
        | some (ex, r3) => some (.num (String.mk (sign ++ ds ++ fr ++ ex)), r3)

mutual

/-- One JSON value, with fuel bounding the recursion depth and the number of
container elements; returns the value and the remaining text. -/
def parseVal : Nat → List Char → Option (Json × List Char)
  | 0, _ => none
  | fuel + 1, s =>
    match skipWs s with
    | [] => none
    | c :: r =>
      if c = 'n' then
        match r with
        | 'u' :: 'l' :: 'l' :: r1 => some (.null, r1)
        | _ => none
      else if c = 't' then
        match r with
        | 'r' :: 'u' :: 'e' :: r1 => some (.bool true, r1)
        | _ => none
      else if c = 'f' then
        match r with
        | 'a' :: 'l' :: 's' :: 'e' :: r1 => some (.bool false, r1)
        | _ => none
      else if c = '\"' then
        match parseStr (r.length + 1) r with
        | some (cs, r1) => some (.str (String.mk cs), r1)
        | none => none
      else if c = '[' then
        match skipWs r with
        | ']' :: r1 => some (.arr [], r1)
        | r1 => parseElems fuel r1 []
      else if c = '\x7b' then
        match skipWs r with
        | '\x7d' :: r1 => some (.obj [], r1)
        | r1 => parseMembers fuel r1 []
      else parseNum (c :: r)

/-- Elements of a non-empty array, each followed by `,` or `]`. -/
def parseElems : Nat → List Char → List Json → Option (Json × List Char)
  | 0, _, _ => none
  | fuel + 1, s, acc =>
    match parseVal fuel s with
    | none => none
    | some (v, r) =>
      match skipWs r with
      | ',' :: r1 => parseElems fuel r1 (acc ++ [v])
      | ']' :: r1 => some (.arr (acc ++ [v]), r1)
      | _ => none

/-- Members of a non-empty object: quoted key, `:`, value, then `,` or the
closing brace. -/
def parseMembers : Nat → List Char → List (String × Json) → Option (Json × List Char)
  | 0, _, _ => none
  | fuel + 1, s, acc =>
    match skipWs s with
    | '\"' :: r =>
      match parseStr (r.length + 1) r with
      | none => none
      | some (k, r1) =>
        match skipWs r1 with
        | ':' :: r2 =>
          match parseVal fuel r2 with
          | none => none
          | some (v, r3) =>
            match skipWs r3 with
            | ',' :: r4 => parseMembers fuel r4 (acc ++ [(String.mk k, v)])
            | '\x7d' :: r4 => some (.obj (acc ++ [(String.mk k, v)]), r4)
            | _ => none
        | _ => none
    | _ => none

end

/-- The model of `JSON.parse`: one complete JSON value, surrounded only by
whitespace, or failure (in JS, a thrown `SyntaxError`). The fuel
`s.length + 1` is enough for any accepted text, since every unit of fuel
spent consumes at least one input character. -/
def jsonParse (s : String) : Option Json :=
  match parseVal (s.length + 1) s.data with
  | some (v, rest) => if skipWs rest = [] then some v else none
  | none => none

/-! ## Hydration (`loadTasks`) -/

/-- Observable outcome of `loadTasks`: `kept` when the retrieved value is
absent or falsy (no `setTasks` call, no alert), `replaced j` when
`JSON.parse` succeeded and `setTasks` was called with its result, `failed`
when `JSON.parse` threw and the catch block showed the load-error alert,
leaving the state untouched. -/
inductive HydrateOutcome where
  | kept
  | replaced (j : Json)
  | failed
deriving Repr

/-- The `loadTasks` startup read: `getItem` yields `stored` (`none` models
`null`); the `if (storedTasks)` truthiness test skips `JSON.parse` for
`null` and for the empty string; otherwise the parse result replaces the
state, or the catch block reports the failure. -/
def loadTasks (stored : Option String) : HydrateOutcome :=
  match stored with
  | none => .kept
  | some s =>
    if s = "" then .kept
    else
      match jsonParse s with
      | some j => .replaced j
      | none => .failed

/-- Field access on a parsed object, as JS property lookup on an object
built from a literal with possibly duplicate keys: the last occurrence
wins. -/
def objGet (ms : List (String × Json)) (k : String) : Option Json :=
  match ms with
  | [] => none
  | (k1, v) :: rest =>
    match objGet rest k with
    | some w => some w
    | none => if k1 = k then some v else none

/-- Reading one task back out of a parsed object, by the three field
accesses the app performs on list items (`item.id`, `item.text`,
`item.isCompleted`), requiring the stored value types. -/
def decodeTask : Json → Option Task
  | .obj ms =>
    match objGet ms "id", objGet ms "text", objGet ms "isCompleted" with
    | some (.str i), some (.str tx), some (.bool c) => some ⟨i, tx, c⟩
    | _, _, _ => none
  | _ => none

/-- Reading a task list back out of a parsed array. -/
def decodeTaskList : List Json → Option (List Task)
  | [] => some []
  | e :: es =>
    match decodeTask e, decodeTaskList es with
    | some t, some ts => some (t :: ts)
    | _, _ => none

/-- Reading a task list back out of a parsed value. -/
def decodeTasks : Json → Option (List Task)
  | .arr es => decodeTaskList es
  | _ => none

/-! ## The persistence effect (`useEffect(() => saveTasks(tasks), [tasks])`)

Every commit in which the `tasks` array changed reference runs `saveTasks`
once with the new array. React fires this effect on the initial mount as
well, so the mount itself writes the serialized initial list. A handler
calls `setTasks` with a freshly built array (`cons`, `map` or `filter`), so
each handled event that reaches `setTasks` causes exactly one re-render and
one effect run; the only handler path that skips `setTasks` is `addTask`
returning early on whitespace-only input. Events are handled one at a time
in arrival order, so the `setItem` calls are issued in event order. -/

/-- Whether a UI event reaches `setTasks` (and hence produces a write). -/
def effective : Event → Bool
  | .add _ text => !(jsTrim text == "")
  | .toggle _ => true
  | .del _ => true

/-- One handled event acting on the pair of in-memory list and the sequence
of `setItem` calls (key, payload) issued so far. -/
def stepTrace (st : List Task × List (String × String)) (ev : Event) :
    List Task × List (String × String) :=
  if effective ev then
    ((applyEvent st.1 ev), st.2 ++ [(STORAGE_KEY, stringifyTasks (applyEvent st.1 ev))])
  else st

/-- The in-memory list and the ordered `setItem` calls after mounting
with the empty list (which already fires the effect once) and handling the
given events. -/
def runTrace (evs : List Event) : List Task × List (String × String) :=
  evs.foldl stepTrace ([], [(STORAGE_KEY, stringifyTasks [])])

/-- The save-failure alert text shown by the catch block of `saveTasks`. -/
def saveAlert : String := "Erro ao salvar"

/-- State of the store synchronization when write outcomes are tracked:
the in-memory list, the attempted `setItem` payloads in call order, and the
alerts shown for rejected writes. -/
structure SyncState where
  tasks : List Task
  attempts : List (String × String)
  alerts : List String
deriving Repr

/-- One handled event when the write numbered `n` (in call order) succeeds
iff `ok n`: the state mutation happens unconditionally, the write is
attempted exactly once, and a rejection only adds the alert. -/
def stepSync (ok : Nat → Bool) (st : SyncState) (ev : Event) : SyncState :=
  if effective ev then
    { tasks := applyEvent st.tasks ev,
      attempts := st.attempts ++ [(STORAGE_KEY, stringifyTasks (applyEvent st.tasks ev))],
      alerts := st.alerts ++ (if ok st.attempts.length then [] else [saveAlert]) }
  else st

/-- Mount (with its initial write, attempt number 0) followed by the given
events, under the write-outcome assignment `ok`. -/
def runSync (evs : List Event) (ok : Nat → Bool) : SyncState :=
  evs.foldl (stepSync ok)
    ⟨[], [(STORAGE_KEY, stringifyTasks [])], if ok 0 then [] else [saveAlert]⟩

/-- Spec-side description of the mutation writes: for each event index `i`
whose event reaches `setTasks`, one write under the fixed key of the full
list serialized as it stands after the first `i + 1` events, in event
order. -/
def expectedWrites (evs : List Event) : List (String × String) :=
  (List.range evs.length).filterMap fun i =>
    match evs[i]? with
    | some ev =>
      if effective ev then some (STORAGE_KEY, stringifyTasks (run (evs.take (i + 1))))
      else none
    | none => none

/-! ## Helper lemmas -/

/-- Toggling never changes the sequence of ids. -/
theorem ids_toggleTask (k : String) (ts : List Task) :
    ids (toggleTask k ts) = ids ts := by
  unfold ids toggleTask
  rw [List.map_map]
  apply List.map_congr_left
  intro t _
  by_cases h : t.id = k <;> simp [h]

/-- Deletion yields a sublist: survivors keep their relative order. -/
theorem deleteTask_sublist (k : String) (ts : List Task) :
    List.Sublist (deleteTask k ts) ts :=
  List.filter_sublist ts

/-- Middle-split form of id distinctness: the id at the split point occurs
neither before nor after it. -/
theorem nodup_middle_split (l₁ : List Task) (t : Task) (l₂ : List Task)
    (h : (ids (l₁ ++ t :: l₂)).Nodup) :
    (∀ u ∈ l₁, u.id ≠ t.id) ∧ (∀ u ∈ l₂, u.id ≠ t.id) := by
  unfold ids at h
  rw [List.map_append, List.map_cons, List.nodup_append] at h
  refine ⟨?_, ?_⟩
  · intro u hu heq
    exact h.2.2 (List.mem_map_of_mem Task.id hu) (by simp [heq])
  · intro u hu heq
    have hcons := h.2.1
    rw [List.nodup_cons] at hcons
    exact hcons.1 (heq ▸ List.mem_map_of_mem Task.id hu)

/-- Adding with a fresh clock reading preserves id distinctness. -/
theorem nodup_ids_addTask (now : Nat) (s : String) (ts : List Task)
    (h : (ids ts).Nodup) (hfresh : generateId now ∉ ids ts) :
    (ids (addTask now s ts)).Nodup := by
  unfold addTask
  by_cases he : jsTrim s = ""
  · simpa [he] using h
  · rw [if_neg he]
    exact List.nodup_cons.mpr ⟨hfresh, h⟩

/-- Toggling preserves id distinctness. -/
theorem nodup_ids_toggleTask (k : String) (ts : List Task)
    (h : (ids ts).Nodup) : (ids (toggleTask k ts)).Nodup := by
  rw [ids_toggleTask]; exact h

/-- Deleting preserves id distinctness. -/
theorem nodup_ids_deleteTask (k : String) (ts : List Task)
    (h : (ids ts).Nodup) : (ids (deleteTask k ts)).Nodup :=
  List.Nodup.sublist (List.Sublist.map Task.id (deleteTask_sublist k ts)) h

/-- Splitting the length of a list into survivors and removals of a
delete. -/
theorem length_deleteTask_add (k : String) (ts : List Task) :
    (deleteTask k ts).length + (ts.filter (fun t => t.id == k)).length = ts.length := by
  have h := List.length_eq_length_filter_add (l := ts) (fun t => t.id == k)
  have he : deleteTask k ts = ts.filter (fun t => !(t.id == k)) := by
    unfold deleteTask
    apply List.filter_congr
    intro t _
    by_cases h : t.id = k <;> simp [h]
  rw [he]
  omega

/-- Whitespace skipping does nothing on a non-whitespace head. -/
theorem skipWs_cons (c : Char) (r : List Char) (h : isWs c = false) :
    skipWs (c :: r) = c :: r := by
  simp [skipWs, h]

/-- Our hexadecimal digits decode to their value. -/
theorem hexVal_hexDigit (n : Nat) (h : n < 16) : hexVal (hexDigit n) = some n := by
  interval_cases n <;> decide

/-- Reading back an escaped string body: the escapes `JSON.stringify` emits
are decoded to the original characters, up to the closing quote. -/
theorem parseStr_escape (cs : List Char) : ∀ f rest,
    parseStr (cs.length + 1 + f) ((cs.map escapeChar).flatten ++ '\"' :: rest) =
      some (cs, rest) := by
  induction cs with
  | nil =>
    intro f rest
    rw [show ([] : List Char).length + 1 + f = f + 1 by simp; omega]
    simp [parseStr]
  | cons c cs ih =>
    intro f rest
    rw [show (c :: cs).length + 1 + f = (cs.length + 1 + f) + 1 by simp; omega]
    rw [show ((c :: cs).map escapeChar).flatten ++ '\"' :: rest =
      escapeChar c ++ ((cs.map escapeChar).flatten ++ '\"' :: rest) by simp]
    by_cases h1 : c = '\"'
    · subst h1
      simp [escapeChar, parseStr, parseEsc, escChar1, ih]
    · by_cases h2 : c = '\\'
      · subst h2
        simp [escapeChar, parseStr, parseEsc, escChar1, ih]
      · by_cases h3 : c = Char.ofNat 8
        · subst h3
          simp [escapeChar, parseStr, parseEsc, escChar1, ih]
        · by_cases h4 : c = Char.ofNat 9
          · subst h4
            simp [escapeChar, parseStr, parseEsc, escChar1, ih]
          · by_cases h5 : c = Char.ofNat 10
            · subst h5
              simp [escapeChar, parseStr, parseEsc, escChar1, ih]
            · by_cases h6 : c = Char.ofNat 12
              · subst h6
                simp [escapeChar, parseStr, parseEsc, escChar1, ih]
              · by_cases h7 : c = Char.ofNat 13
                · subst h7
                  simp [escapeChar, parseStr, parseEsc, escChar1, ih]
                · by_cases h8 : c.toNat < 32
                  · have hhi : hexVal (hexDigit (c.toNat / 16)) = some (c.toNat / 16) :=
                      hexVal_hexDigit _ (by omega)
                    have hlo : hexVal (hexDigit (c.toNat % 16)) = some (c.toNat % 16) :=
                      hexVal_hexDigit _ (by omega)
                    have hesc : escapeChar c =
                        ['\\', 'u', '0', '0', hexDigit (c.toNat / 16), hexDigit (c.toNat % 16)] := by
                      simp [escapeChar, h1, h2, h3, h4, h5, h6, h7, h8]
                    rw [hesc]
                    have h0 : hexVal '0' = some 0 := by decide
                    have hx : hex4 '0' '0' (hexDigit (c.toNat / 16)) (hexDigit (c.toNat % 16)) =
                        some c.toNat := by
                      simp [hex4, h0, hhi, hlo]
                      omega
                    simp [parseStr, parseEsc, hx, show c.toNat < 55296 by omega,
                      Char.ofNat_toNat, ih]
                  · have hesc : escapeChar c = [c] := by
                      simp [escapeChar, h1, h2, h3, h4, h5, h6, h7, h8]
                    rw [hesc]
                    simp [parseStr, h1, h2, h8, ih]

theorem parseVal_true (f : Nat) (rest : List Char) :
    parseVal (f + 1) ('t' :: 'r' :: 'u' :: 'e' :: rest) = some (.bool true, rest) := by
  simp [parseVal, skipWs, isWs]

theorem parseVal_false (f : Nat) (rest : List Char) :
    parseVal (f + 1) ('f' :: 'a' :: 'l' :: 's' :: 'e' :: rest) = some (.bool false, rest) := by
  simp [parseVal, skipWs, isWs]

theorem parseStr_key_id (f : Nat) (r : List Char) :
    parseStr (f + 3) ('i' :: 'd' :: '\"' :: r) = some (['i', 'd'], r) := by
  simp [parseStr]

theorem parseStr_key_text (f : Nat) (r : List Char) :
    parseStr (f + 5) ('t' :: 'e' :: 'x' :: 't' :: '\"' :: r) =
      some (['t', 'e', 'x', 't'], r) := by
  simp [parseStr]

theorem parseStr_key_isCompleted (f : Nat) (r : List Char) :
    parseStr (f + 12)
      ('i' :: 's' :: 'C' :: 'o' :: 'm' :: 'p' :: 'l' :: 'e' :: 't' :: 'e' :: 'd' :: '\"' :: r) =
      some (['i', 's', 'C', 'o', 'm', 'p', 'l', 'e', 't', 'e', 'd'], r) := by
  simp [parseStr]

theorem escapeChar_length_pos (c : Char) : 1 ≤ (escapeChar c).length := by
  unfold escapeChar
  split_ifs <;> simp

theorem length_le_flatten_escape (cs : List Char) :
    cs.length ≤ ((cs.map escapeChar).flatten).length := by
  induction cs with
  | nil => simp
  | cons c cs ih =>
    simp only [List.map_cons, List.flatten_cons, List.length_append, List.length_cons]
    have := escapeChar_length_pos c
    omega

theorem parseVal_str (s : String) (f : Nat) (rest : List Char) :
    parseVal (f + 1) (renderStr s ++ rest) = some (.str s, rest) := by
  rw [show renderStr s ++ rest =
    '\"' :: ((s.data.map escapeChar).flatten ++ '\"' :: rest) by simp [renderStr]]
  have hlen := length_le_flatten_escape s.data
  have hps2 : parseStr ((s.data.map escapeChar).flatten.length + (rest.length + 1) + 1)
      ((s.data.map escapeChar).flatten ++ '\"' :: rest) = some (s.data, rest) := by
    have h := parseStr_escape s.data
      ((s.data.map escapeChar).flatten.length + rest.length + 1 - s.data.length) rest
    rw [show s.data.length + 1 +
        ((s.data.map escapeChar).flatten.length + rest.length + 1 - s.data.length) =
        (s.data.map escapeChar).flatten.length + (rest.length + 1) + 1 by omega] at h
    exact h
  simp only [List.length_flatten, List.map_map] at hps2
  simp [parseVal, skipWs, isWs, hps2]

theorem parseMembers_task (t : Task) (f : Nat) (rest : List Char) :
    parseMembers (f + 4)
      ('\"' :: 'i' :: 'd' :: '\"' :: ':' ::
        (renderStr t.id ++ ',' :: '\"' :: 't' :: 'e' :: 'x' :: 't' :: '\"' :: ':' ::
          (renderStr t.text ++ ',' :: '\"' :: 'i' :: 's' :: 'C' :: 'o' :: 'm' :: 'p' :: 'l' ::
            'e' :: 't' :: 'e' :: 'd' :: '\"' :: ':' ::
            ((if t.isCompleted then ['t', 'r', 'u', 'e'] else ['f', 'a', 'l', 's', 'e']) ++
              '\x7d' :: rest)))) [] = some (encodeTask t, rest) := by
  cases hc : t.isCompleted <;>
    simp [hc, parseMembers, skipWs, isWs, parseStr_key_id, parseStr_key_text,
      parseStr_key_isCompleted, parseVal_str, parseVal_true, parseVal_false, encodeTask]

theorem parseVal_taskObj (t : Task) (f : Nat) (rest : List Char) :
    parseVal (f + 5) (renderTask t ++ rest) = some (encodeTask t, rest) := by
  rw [show renderTask t ++ rest =
    '\x7b' :: ('\"' :: 'i' :: 'd' :: '\"' :: ':' ::
      (renderStr t.id ++ ',' :: '\"' :: 't' :: 'e' :: 'x' :: 't' :: '\"' :: ':' ::
        (renderStr t.text ++ ',' :: '\"' :: 'i' :: 's' :: 'C' :: 'o' :: 'm' :: 'p' :: 'l' ::
          'e' :: 't' :: 'e' :: 'd' :: '\"' :: ':' ::
          ((if t.isCompleted then ['t', 'r', 'u', 'e'] else ['f', 'a', 'l', 's', 'e']) ++
            '\x7d' :: rest)))) by simp [renderTask]]
  simp [parseVal, skipWs, isWs, parseMembers_task]

theorem renderTask_length (t : Task) : 38 ≤ (renderTask t).length := by
  cases hc : t.isCompleted <;> simp [hc, renderTask, renderStr] <;> omega

theorem renderElems_length (ts : List Task) (h : ts ≠ []) :
    6 * ts.length ≤ (renderElems ts).length := by
  induction ts with
  | nil => simp at h
  | cons t ts ih =>
    cases ts with
    | nil =>
      have := renderTask_length t
      simp [renderElems]
      omega
    | cons t2 ts2 =>
      rw [show renderElems (t :: t2 :: ts2) = renderTask t ++ ',' :: renderElems (t2 :: ts2)
        from rfl]
      have h1 := renderTask_length t
      have h2 := ih (by simp)
      simp only [List.length_append, List.length_cons] at *
      omega

theorem parseElems_step (f : Nat) (s : List Char) (acc : List Json) :
    parseElems (f + 1) s acc =
      match parseVal f s with
      | none => none
      | some (v, r) =>
        match skipWs r with
        | ',' :: r1 => parseElems f r1 (acc ++ [v])
        | ']' :: r1 => some (.arr (acc ++ [v]), r1)
        | _ => none := by
  conv_lhs => rw [parseElems]

theorem parseElems_render (ts : List Task) : ts ≠ [] → ∀ (f : Nat) (acc : List Json)
    (rest : List Char),
    parseElems ((6 * ts.length + f) + 1) (renderElems ts ++ ']' :: rest) acc =
      some (.arr (acc ++ ts.map encodeTask), rest) := by
  induction ts with
  | nil => intro h; simp at h
  | cons t ts ih =>
    intro _ f acc rest
    cases ts with
    | nil =>
      rw [show renderElems [t] = renderTask t from rfl]
      rw [show 6 * ([t] : List Task).length + f = (f + 5) + 1 by simp; omega]
      rw [parseElems_step]
      rw [show (f + 5) + 1 = (f + 1) + 5 by omega]
      rw [parseVal_taskObj]
      simp [skipWs, isWs]
    | cons t2 ts2 =>
      rw [show renderElems (t :: t2 :: ts2) = renderTask t ++ ',' :: renderElems (t2 :: ts2)
        from rfl]
      rw [show 6 * ((t :: t2 :: ts2) : List Task).length + f =
        (6 * ((t2 :: ts2) : List Task).length + (f + 5)) + 1 by simp; ring]
      rw [parseElems_step]
      rw [List.append_assoc]
      rw [show (6 * ((t2 :: ts2) : List Task).length + (f + 5)) + 1 =
        (6 * ((t2 :: ts2) : List Task).length + (f + 1)) + 5 by omega]
      rw [parseVal_taskObj]
      rw [show (6 * ((t2 :: ts2) : List Task).length + (f + 1)) + 5 =
        (6 * ((t2 :: ts2) : List Task).length + (f + 5)) + 1 by omega]
      have hih := ih (by simp) (f + 5) (acc ++ [encodeTask t]) rest
      simp only [List.length_cons] at hih
      simp [skipWs, isWs, hih]

theorem parseVal_arr_obj (f : Nat) (r : List Char) :
    parseVal (f + 1) ('[' :: '\x7b' :: r) = parseElems f ('\x7b' :: r) [] := by
  simp [parseVal, skipWs, isWs]

theorem renderElems_cons_head (t : Task) (ts : List Task) :
    ∃ mid, renderElems (t :: ts) = '\x7b' :: mid := by
  cases ts <;> exact ⟨_, rfl⟩

theorem jsonParse_stringify (ts : List Task) :
    jsonParse (stringifyTasks ts) = some (encodeTasks ts) := by
  cases ts with
  | nil => rfl
  | cons t ts' =>
    unfold jsonParse
    obtain ⟨mid, hmid⟩ := renderElems_cons_head t ts'
    have hb := renderElems_length (t :: ts') (by simp)
    have hb2 := hb
    rw [hmid] at hb2
    simp only [List.length_cons] at hb2
    rw [show (stringifyTasks (t :: ts')).data = '[' :: (renderElems (t :: ts') ++ [']'])
      from rfl]
    rw [show (stringifyTasks (t :: ts')).length = (renderElems (t :: ts')).length + 2 from by
      simp [stringifyTasks, String.length]]
    rw [hmid]
    rw [show (('\x7b' :: mid) ++ [']'] : List Char) = '\x7b' :: (mid ++ [']']) from rfl]
    rw [parseVal_arr_obj]
    rw [show ('\x7b' : Char) :: (mid ++ [']']) = renderElems (t :: ts') ++ ']' :: [] from by
      rw [hmid]; rfl]
    rw [show (('\x7b' :: mid) : List Char).length + 2 =
      (6 * ((t :: ts') : List Task).length +
        (mid.length + 2 - 6 * ((t :: ts') : List Task).length)) + 1 from by
      simp only [List.length_cons]
      omega]
    rw [parseElems_render (t :: ts') (by simp)]
    simp [skipWs, encodeTasks]

theorem decodeTask_encodeTask (t : Task) : decodeTask (encodeTask t) = some t := by
  simp [decodeTask, encodeTask, objGet]

theorem decodeTasks_encodeTasks (ts : List Task) :
    decodeTasks (encodeTasks ts) = some ts := by
  rw [show decodeTasks (encodeTasks ts) = decodeTaskList (ts.map encodeTask) from rfl]
  induction ts with
  | nil => rfl
  | cons t ts ih => simp [decodeTaskList, decodeTask_encodeTask, ih]

/-- Events that do not reach `setTasks` leave the list unchanged. -/
theorem applyEvent_of_not_effective (ts : List Task) (ev : Event)
    (h : effective ev = false) : applyEvent ts ev = ts := by
  cases ev with
  | add now text =>
    simp [effective] at h
    simp [applyEvent, addTask, h]
  | toggle id => simp [effective] at h
  | del id => simp [effective] at h

/-- Unfolding `run` over a final event. -/
theorem run_concat (evs : List Event) (ev : Event) :
    run (evs ++ [ev]) = applyEvent (run evs) ev := by
  simp [run, runFrom, List.foldl_append]

/-- Unfolding `runTrace` over a final event. -/
theorem runTrace_concat (evs : List Event) (ev : Event) :
    runTrace (evs ++ [ev]) = stepTrace (runTrace evs) ev := by
  simp [runTrace, List.foldl_append]

/-- Unfolding `runSync` over a final event. -/
theorem runSync_concat (evs : List Event) (ev : Event) (ok : Nat → Bool) :
    runSync (evs ++ [ev]) ok = stepSync ok (runSync evs ok) ev := by
  simp [runSync, List.foldl_append]

/-- Unfolding the expected write sequence over a final event. -/
theorem expectedWrites_concat (evs : List Event) (ev : Event) :
    expectedWrites (evs ++ [ev]) =
      expectedWrites evs ++
        (if effective ev then [(STORAGE_KEY, stringifyTasks (run (evs ++ [ev])))] else []) := by
  unfold expectedWrites
  rw [show (evs ++ [ev]).length = evs.length + 1 from by simp, List.range_succ,
    List.filterMap_append]
  congr 1
  · apply List.filterMap_congr
    intro i hi
    have hi2 : i < evs.length := List.mem_range.mp hi
    rw [List.getElem?_append_left hi2, List.take_append_of_le_length (by omega)]
  · simp only [List.filterMap_cons, List.filterMap_nil]
    rw [List.getElem?_concat_length]
    rw [show (evs ++ [ev]).take (evs.length + 1) = evs ++ [ev] from by
      apply List.take_of_length_le
      simp]
    by_cases h : effective ev <;> simp [h]

/-- The in-memory component of the trace is the plain event fold. -/
theorem runTrace_fst (evs : List Event) : (runTrace evs).1 = run evs := by
  induction evs using List.reverseRecOn with
  | nil => rfl
  | append_singleton evs ev ih =>
    rw [runTrace_concat, run_concat]
    by_cases h : effective ev
    · simp [stepTrace, h, ih]
    · have h2 : effective ev = false := by simpa using h
      simp [stepTrace, h2, applyEvent_of_not_effective _ _ h2, ih]

/-! ## The claims -/

/-- C1 counterexample: the list `[{id "5", "b"}, {id "5", "a"}]` with two
equal ids is reachable from the empty list — two adds whose `Date.now()`
readings fall in the same millisecond — so reachable states do not always
have pairwise distinct ids; in particular `addTask` applied to a
distinct-id list and a non-empty text can produce a duplicated id. -/
theorem unique_ids_counterexample :
    Reachable [⟨"5", "b", false⟩, ⟨"5", "a", false⟩] ∧
    ¬ (ids [⟨"5", "b", false⟩, ⟨"5", "a", false⟩]).Nodup ∧
    (ids [⟨"5", "a", false⟩]).Nodup ∧
    jsTrim "b" ≠ "" ∧
    addTask 5 "b" [⟨"5", "a", false⟩] = [⟨"5", "b", false⟩, ⟨"5", "a", false⟩] :=
  ⟨⟨[.add 5 "a", .add 5 "b"], by decide⟩, by decide, by decide, by decide, by decide⟩

/-- C1 amended: ids are pairwise distinct in every state reachable with
fresh clock readings (each add's `Date.now().toString()` differing from all
ids already in the list, as under a strictly monotone millisecond clock),
and each single operation preserves id distinctness — `addTask` under that
same freshness assumption, `toggleTask` and `deleteTask` unconditionally. -/
theorem unique_ids_spec :
    (∀ tasks, ReachableFresh tasks → (ids tasks).Nodup) ∧
    (∀ now s tasks, (ids tasks).Nodup → generateId now ∉ ids tasks →
      (ids (addTask now s tasks)).Nodup) ∧
    (∀ k tasks, (ids tasks).Nodup → (ids (toggleTask k tasks)).Nodup) ∧
    (∀ k tasks, (ids tasks).Nodup → (ids (deleteTask k tasks)).Nodup) := by
  refine ⟨?_, nodup_ids_addTask, nodup_ids_toggleTask, nodup_ids_deleteTask⟩
  intro tasks h
  induction h with
  | init => simp [ids]
  | addStep now text ts hr hfresh ih => exact nodup_ids_addTask now text ts ih hfresh
  | toggleStep k ts hr ih => exact nodup_ids_toggleTask k ts ih
  | delStep k ts hr ih => exact nodup_ids_deleteTask k ts ih

/-- C1 witness: the amended preservation applied at a concrete fresh add. -/
theorem unique_ids_spec_witness :
    (ids (addTask 2 "b" [⟨"1", "a", false⟩])).Nodup :=
  unique_ids_spec.2.1 2 "b" [⟨"1", "a", false⟩] (by decide) (by decide)

/-- C2: an add of a whitespace-only text leaves the list unchanged; an add
of any other text prepends exactly the task `{generateId now, trimmed text,
isCompleted := false}`, keeping all prior tasks in order, so the length
grows by exactly one. -/
theorem add_spec (now : Nat) (s : String) (ts : List Task) :
    (jsTrim s = "" → addTask now s ts = ts) ∧
    (jsTrim s ≠ "" →
      addTask now s ts =
        { id := generateId now, text := jsTrim s, isCompleted := false } :: ts ∧
      (addTask now s ts).length = ts.length + 1) := by
  constructor
  · intro h; simp [addTask, h]
  · intro h; simp [addTask, h]

/-- C2 witness: both branches evaluated on concrete inputs. -/
theorem add_spec_witness :
    addTask 3 " buy milk " [⟨"1", "a", true⟩] =
      [⟨"3", "buy milk", false⟩, ⟨"1", "a", true⟩] ∧
    addTask 3 "   " [⟨"1", "a", true⟩] = [⟨"1", "a", true⟩] := by
  constructor
  · have h := ((add_spec 3 " buy milk " [⟨"1", "a", true⟩]).2 (by decide)).1
    rw [h]; decide
  · exact (add_spec 3 "   " [⟨"1", "a", true⟩]).1 (by decide)

/-- C3 counterexample: on a list where two tasks share id "1", toggling "1"
flips both of them, so it does not flip only that task while leaving every
other task's fields unchanged (the result differs from either single
flip). -/
theorem toggle_claim_counterexample :
    (∃ t ∈ ([⟨"1", "a", false⟩, ⟨"1", "b", false⟩] : List Task), t.id = "1") ∧
    toggleTask "1" [⟨"1", "a", false⟩, ⟨"1", "b", false⟩] =
      [⟨"1", "a", true⟩, ⟨"1", "b", true⟩] ∧
    toggleTask "1" [⟨"1", "a", false⟩, ⟨"1", "b", false⟩] ≠
      [⟨"1", "a", true⟩, ⟨"1", "b", false⟩] ∧
    toggleTask "1" [⟨"1", "a", false⟩, ⟨"1", "b", false⟩] ≠
      [⟨"1", "a", false⟩, ⟨"1", "b", true⟩] := by decide

/-- C3 amended: on a list with pairwise distinct ids, toggling an absent id
is the identity, toggling twice is the identity, and toggling a present id
flips exactly the matching task in place, leaving all other tasks and the
order unchanged. -/
theorem toggle_spec (k : String) (ts : List Task) (hnd : (ids ts).Nodup) :
    ((∀ t ∈ ts, t.id ≠ k) → toggleTask k ts = ts) ∧
    toggleTask k (toggleTask k ts) = ts ∧
    (∀ l₁ t l₂, ts = l₁ ++ t :: l₂ → t.id = k →
      toggleTask k ts = l₁ ++ { t with isCompleted := !t.isCompleted } :: l₂) := by
  refine ⟨?_, ?_, ?_⟩
  · intro h
    unfold toggleTask
    rw [show ts.map _ = ts.map id from List.map_congr_left fun t ht => by
      simp [h t ht], List.map_id]
  · unfold toggleTask
    rw [List.map_map]
    rw [show ts.map _ = ts.map id from List.map_congr_left fun t _ => by
      obtain ⟨i, tx, c⟩ := t
      by_cases h : i = k <;> simp [h, Function.comp], List.map_id]
  · intro l₁ t l₂ hts hk
    subst hts
    obtain ⟨h₁, h₂⟩ := nodup_middle_split l₁ t l₂ hnd
    unfold toggleTask
    rw [List.map_append, List.map_cons]
    rw [show l₁.map _ = l₁.map id from List.map_congr_left fun u hu => by
      simp [hk ▸ h₁ u hu], List.map_id]
    rw [show l₂.map _ = l₂.map id from List.map_congr_left fun u hu => by
      simp [hk ▸ h₂ u hu], List.map_id]
    simp [hk]

/-- C3 witness: the amended theorem applied to a concrete three-task list
(present id) and a concrete singleton (absent id). -/
theorem toggle_spec_witness :
    toggleTask "2" [⟨"1", "a", false⟩, ⟨"2", "b", false⟩, ⟨"3", "c", true⟩] =
      [⟨"1", "a", false⟩, ⟨"2", "b", true⟩, ⟨"3", "c", true⟩] ∧
    toggleTask "9" [⟨"1", "a", false⟩] = [⟨"1", "a", false⟩] := by
  constructor
  · have h := (toggle_spec "2" [⟨"1", "a", false⟩, ⟨"2", "b", false⟩, ⟨"3", "c", true⟩]
      (by decide)).2.2 [⟨"1", "a", false⟩] ⟨"2", "b", false⟩ [⟨"3", "c", true⟩]
      (by decide) (by decide)
    rw [h]; decide
  · exact (toggle_spec "9" [⟨"1", "a", false⟩] (by decide)).1 (by decide)

/-- C4 counterexample: on a list where two tasks share id "7", deleting "7"
removes both, not exactly one. -/
theorem delete_claim_counterexample :
    (∃ t ∈ ([⟨"7", "a", false⟩, ⟨"7", "b", true⟩] : List Task), t.id = "7") ∧
    deleteTask "7" [⟨"7", "a", false⟩, ⟨"7", "b", true⟩] = [] ∧
    (deleteTask "7" [⟨"7", "a", false⟩, ⟨"7", "b", true⟩]).length ≠
      ([⟨"7", "a", false⟩, ⟨"7", "b", true⟩] : List Task).length - 1 := by decide

/-- C4 amended: on a list with pairwise distinct ids, deleting an absent id
is the identity, and deleting a present id removes exactly the matching
task, keeping all remaining tasks in their prior relative order. -/
theorem delete_spec (k : String) (ts : List Task) (hnd : (ids ts).Nodup) :
    ((∀ t ∈ ts, t.id ≠ k) → deleteTask k ts = ts) ∧
    (∀ l₁ t l₂, ts = l₁ ++ t :: l₂ → t.id = k →
      deleteTask k ts = l₁ ++ l₂) := by
  refine ⟨?_, ?_⟩
  · intro h
    unfold deleteTask
    rw [List.filter_eq_self]
    intro t ht
    simpa using h t ht
  · intro l₁ t l₂ hts hk
    subst hts
    obtain ⟨h₁, h₂⟩ := nodup_middle_split l₁ t l₂ hnd
    unfold deleteTask
    rw [List.filter_append, List.filter_cons]
    rw [List.filter_eq_self.mpr fun u hu => by simp [hk ▸ h₁ u hu]]
    rw [List.filter_eq_self.mpr fun u hu => by simp [hk ▸ h₂ u hu]]
    simp [hk]

/-- C4 witness: the amended theorem applied to a concrete three-task list
(present id) and a concrete singleton (absent id). -/
theorem delete_spec_witness :
    deleteTask "2" [⟨"1", "a", false⟩, ⟨"2", "b", false⟩, ⟨"3", "c", true⟩] =
      [⟨"1", "a", false⟩, ⟨"3", "c", true⟩] ∧
    deleteTask "9" [⟨"1", "a", false⟩] = [⟨"1", "a", false⟩] := by
  constructor
  · exact (delete_spec "2" [⟨"1", "a", false⟩, ⟨"2", "b", false⟩, ⟨"3", "c", true⟩]
      (by decide)).2 [⟨"1", "a", false⟩] ⟨"2", "b", false⟩ [⟨"3", "c", true⟩]
      (by decide) (by decide)
  · exact (delete_spec "9" [⟨"1", "a", false⟩] (by decide)).1 (by decide)

/-- C9: deletion filters on id equality: afterwards no task with the given
id remains, every task with a different id survives, survivors keep their
relative order, and the number of removed tasks equals the number of tasks
that had the id. -/
theorem delete_filters_all (k : String) (ts : List Task) :
    (∀ t ∈ deleteTask k ts, t.id ≠ k) ∧
    (∀ t ∈ ts, t.id ≠ k → t ∈ deleteTask k ts) ∧
    List.Sublist (deleteTask k ts) ts ∧
    (deleteTask k ts).length + (ts.filter (fun t => t.id == k)).length = ts.length := by
  refine ⟨?_, ?_, deleteTask_sublist k ts, ?_⟩
  · intro t ht
    have := List.of_mem_filter ht
    simpa using this
  · intro t ht h
    exact List.mem_filter.mpr ⟨ht, by simpa using h⟩
  · exact length_deleteTask_add k ts

/-- C9 witness: evaluated on a concrete list with a duplicated id. -/
theorem delete_filters_all_witness :
    ∀ t ∈ deleteTask "7" [⟨"7", "a", false⟩, ⟨"8", "b", true⟩, ⟨"7", "c", false⟩],
      t.id ≠ "7" :=
  (delete_filters_all "7" [⟨"7", "a", false⟩, ⟨"8", "b", true⟩, ⟨"7", "c", false⟩]).1

/-- C10: a stored empty string is falsy, so hydration treats it exactly as
an absent blob: no parse, no error, state kept. -/
theorem hydrate_empty_string :
    loadTasks (some "") = HydrateOutcome.kept ∧
    loadTasks (some "") = loadTasks none :=
  ⟨rfl, rfl⟩

/-- C5: for every list reachable by add/toggle/delete from the empty list,
parsing the stored `JSON.stringify` text succeeds and yields exactly the
array of three-field records of the list, and reading the three fields of
each record back gives the original tasks, in order. -/
theorem roundtrip_spec (tasks : List Task) (h : Reachable tasks) :
    jsonParse (stringifyTasks tasks) = some (encodeTasks tasks) ∧
    decodeTasks (encodeTasks tasks) = some tasks :=
  ⟨jsonParse_stringify tasks, decodeTasks_encodeTasks tasks⟩

/-- C5 witness: the round trip evaluated on the concrete reachable list
built by two adds and a toggle. -/
theorem roundtrip_spec_witness :
    jsonParse (stringifyTasks (run [.add 1 "Buy milk", .add 2 "Walk dog", .toggle "1"])) =
      some (encodeTasks (run [.add 1 "Buy milk", .add 2 "Walk dog", .toggle "1"])) ∧
    decodeTasks (encodeTasks (run [.add 1 "Buy milk", .add 2 "Walk dog", .toggle "1"])) =
      some (run [.add 1 "Buy milk", .add 2 "Walk dog", .toggle "1"]) :=
  roundtrip_spec _ ⟨[.add 1 "Buy milk", .add 2 "Walk dog", .toggle "1"], rfl⟩

/-- C6: hydration is total (a Lean function — no crash) and fail-safe: an
absent blob keeps the initial state with no error; a non-empty blob that
does not parse yields the failure outcome (the load-error alert) and keeps
the state; a blob that parses replaces the state with the parsed value — in
particular any blob written by `saveTasks` replaces it with exactly the
stored task list. -/
theorem hydrate_spec :
    loadTasks none = HydrateOutcome.kept ∧
    (∀ s, s ≠ "" → jsonParse s = none → loadTasks (some s) = HydrateOutcome.failed) ∧
    (∀ s j, jsonParse s = some j → loadTasks (some s) = HydrateOutcome.replaced j) ∧
    (∀ tasks, loadTasks (some (stringifyTasks tasks)) =
      HydrateOutcome.replaced (encodeTasks tasks) ∧
      decodeTasks (encodeTasks tasks) = some tasks) := by
  refine ⟨rfl, ?_, ?_, ?_⟩
  · intro s hne hp
    simp [loadTasks, hne, hp]
  · intro s j hp
    have hne : s ≠ "" := by
      intro he
      subst he
      rw [show jsonParse "" = none from rfl] at hp
      cases hp
    simp [loadTasks, hne, hp]
  · intro tasks
    refine ⟨?_, decodeTasks_encodeTasks tasks⟩
    have hne : stringifyTasks tasks ≠ "" := by
      intro he
      have hd := congrArg String.data he
      simp [stringifyTasks] at hd
    simp [loadTasks, hne, jsonParse_stringify]

/-- C6 witness: hydration evaluated on a concrete corrupt blob and on a
concrete parseable blob. -/
theorem hydrate_spec_witness :
    loadTasks (some "\x7bnot json") = HydrateOutcome.failed ∧
    loadTasks (some "[]") = HydrateOutcome.replaced (Json.arr []) := by
  constructor
  · exact hydrate_spec.2.1 "\x7bnot json" (by decide) (by rfl)
  · exact hydrate_spec.2.2.1 "[]" (Json.arr []) (by rfl)


/-- C7 counterexample: with no mutations at all, the mount effect has
already issued one write (the serialized empty list under the fixed key),
so a write call occurs without any corresponding mutation or
hydrate-replacement. -/
theorem write_per_mutation_counterexample :
    (runTrace []).2 = [(STORAGE_KEY, stringifyTasks [])] ∧
    stringifyTasks [] = "[]" ∧
    (runTrace []).2.length = 1 :=
  ⟨rfl, rfl, rfl⟩

/-- C7 amended: the `setItem` calls are exactly the write of the serialized
initial empty list fired by the effect on the initial mount, followed by
one write per mutation that reaches `setTasks` (every toggle and delete,
and every add of non-whitespace text), in mutation order, each carrying the
full serialized list under the fixed key. -/
theorem write_per_mutation_spec (evs : List Event) :
    (runTrace evs).1 = run evs ∧
    (runTrace evs).2 = (STORAGE_KEY, stringifyTasks []) :: expectedWrites evs := by
  induction evs using List.reverseRecOn with
  | nil => exact ⟨rfl, rfl⟩
  | append_singleton evs ev ih =>
    obtain ⟨ih1, ih2⟩ := ih
    rw [runTrace_concat, run_concat, expectedWrites_concat]
    by_cases h : effective ev
    · constructor
      · simp [stepTrace, h, ih1]
      · simp [stepTrace, h, ih1, ih2, run_concat]
    · have h2 : effective ev = false := by simpa using h
      constructor
      · simp [stepTrace, h2, applyEvent_of_not_effective _ _ h2, ih1]
      · simp [stepTrace, h2, ih2]

/-- C8: whatever subset of writes the store rejects, the in-memory list is
the plain fold of the mutations (nothing is rolled back and later
operations are not blocked), the attempted writes are exactly the
one-per-mutation trace (no retry, no skipping), and one save-failure alert
is shown per rejected write. -/
theorem write_failure_spec (evs : List Event) (ok : Nat → Bool) :
    (runSync evs ok).tasks = run evs ∧
    (runSync evs ok).attempts = (runTrace evs).2 ∧
    (runSync evs ok).alerts =
      ((List.range (runTrace evs).2.length).filter fun n => !(ok n)).map
        fun _ => saveAlert := by
  induction evs using List.reverseRecOn with
  | nil =>
    refine ⟨rfl, rfl, ?_⟩
    by_cases h : ok 0 <;> simp [runSync, runTrace, List.range_succ, h]
  | append_singleton evs ev ih =>
    obtain ⟨ih1, ih2, ih3⟩ := ih
    rw [runSync_concat, runTrace_concat, run_concat]
    by_cases h : effective ev
    · refine ⟨?_, ?_, ?_⟩
      · simp [stepSync, h, ih1]
      · simp [stepSync, stepTrace, h, ih1, ih2, runTrace_fst]
      · simp only [stepSync, stepTrace, h, if_true]
        rw [show ((runTrace evs).2 ++
            [(STORAGE_KEY, stringifyTasks (applyEvent (runTrace evs).1 ev))]).length =
          (runTrace evs).2.length + 1 from by simp]
        rw [List.range_succ, List.filter_append, List.map_append, ih3, ih2]
        congr 1
        by_cases hk : ok (runTrace evs).2.length <;> simp [hk]
    · have h2 : effective ev = false := by simpa using h
      exact ⟨by simp [stepSync, h2, applyEvent_of_not_effective _ _ h2, ih1],
        by simp [stepSync, stepTrace, h2, ih2],
        by simp [stepSync, stepTrace, h2, ih3]⟩

end Todo
